import Mathlib

/-!
# urixcode: percent-encoding command-line tool

A shallow embedding of `main.go` together with the parts of the Go standard
library that the program calls (`net/url` query escaping, `fmt` format
interpretation), followed by theorems about the embedded program.

Go strings are sequences of bytes, so a string is a list of bytes here.
-/

namespace Urixcode

/-! ## Bytes and strings -/

/-- A Go `byte`. -/
abbrev Byte := Fin 256

/-- A Go `string`: an immutable sequence of bytes. -/
abbrev Str := List Byte

/-- The bytes of an ASCII string literal. -/
def lit (s : String) : Str := s.toList.map (fun c => Fin.ofNat c.toNat)

/-! ## Exit codes (`main.go`, lines 17-23) -/

/-- The constant expression `1<<iota - 1` of the `const` block. In Go the shift
binds tighter than the subtraction, so it reads `(1 << iota) - 1`. -/
def exitCodeExpr (iota : Nat) : Nat := (1 <<< iota) - 1

/-- First constant of the block: `iota = 0`. -/
def exitSuccess : Nat := exitCodeExpr 0
/-- Second constant: the expression is repeated with `iota = 1`. -/
def exitUsage : Nat := exitCodeExpr 1
/-- Third constant: `iota = 2`. -/
def exitIOError : Nat := exitCodeExpr 2
/-- Fourth constant: `iota = 3`. -/
def exitDecodeError : Nat := exitCodeExpr 3

/-! ## `net/url`: `QueryEscape` and `QueryUnescape`

Both functions call `escape` / `unescape` with the mode `encodeQueryComponent`;
the branches of the other modes are left out. -/

/-- `shouldEscape(c, encodeQueryComponent)`: alphanumerics and the four marks
`-`, `_`, `.`, `~` are kept; the reserved characters and everything else are
escaped. -/
def shouldEscape (c : Byte) : Bool :=
  if (97 ≤ c ∧ c ≤ 122) ∨ (65 ≤ c ∧ c ≤ 90) ∨ (48 ≤ c ∧ c ≤ 57) then false
  else if c = 45 ∨ c = 95 ∨ c = 46 ∨ c = 126 then false
  else true

/-- The table `upperhex = "0123456789ABCDEF"`, indexed by a nibble. -/
def upperhex (i : Byte) : Byte := (lit "0123456789ABCDEF").getD i.val 0

/-- First loop of `escape`: the number of spaces and the number of bytes that
need a `%XX` escape. -/
def escapeCount : Str → Nat × Nat
  | [] => (0, 0)
  | c :: rest =>
    let (spaceCount, hexCount) := escapeCount rest
    if shouldEscape c then
      if c = 32 then (spaceCount + 1, hexCount) else (spaceCount, hexCount + 1)
    else (spaceCount, hexCount)

/-- Final loop of `escape`: space becomes `+`, an escaped byte becomes `%`
followed by its two upper-case hex digits, every other byte is copied. -/
def escapeLoop : Str → Str
  | [] => []
  | c :: rest =>
    if c = 32 then 43 :: escapeLoop rest
    else if shouldEscape c then
      37 :: upperhex (c >>> 4) :: upperhex (c &&& 15) :: escapeLoop rest
    else c :: escapeLoop rest

/-- `escape(s, encodeQueryComponent)`. -/
def escape (s : Str) : Str :=
  let (spaceCount, hexCount) := escapeCount s
  if spaceCount = 0 ∧ hexCount = 0 then s
  else if hexCount = 0 then s.map (fun c => if c = 32 then 43 else c)
  else escapeLoop s

/-- `url.QueryEscape`. -/
def QueryEscape (s : Str) : Str := escape s

/-- `ishex`. -/
def ishex (c : Byte) : Bool :=
  if 48 ≤ c ∧ c ≤ 57 then true
  else if 97 ≤ c ∧ c ≤ 102 then true
  else if 65 ≤ c ∧ c ≤ 70 then true
  else false

/-- `unhex`. -/
def unhex (c : Byte) : Byte :=
  if 48 ≤ c ∧ c ≤ 57 then c - 48
  else if 97 ≤ c ∧ c ≤ 102 then c - 97 + 10
  else if 65 ≤ c ∧ c ≤ 70 then c - 65 + 10
  else 0

/-- First loop of `unescape`: counts the `%` escapes and notes a `+`, or stops
at the first `%` that is not followed by two hex digits and returns the text of
the `EscapeError` (the remaining input cut to three bytes). -/
def unescapeScan : Str → Except Str (Nat × Bool)
  | [] => .ok (0, false)
  | c :: rest =>
    if c = 37 then
      match rest with
      | a :: b :: rest2 =>
        if ishex a && ishex b then
          match unescapeScan rest2 with
          | .ok (n, hasPlus) => .ok (n + 1, hasPlus)
          | .error e => .error e
        else .error ((c :: rest).take 3)
      | _ => .error ((c :: rest).take 3)
    else if c = 43 then
      match unescapeScan rest with
      | .ok (n, _) => .ok (n, true)
      | .error e => .error e
    else unescapeScan rest

/-- Second loop of `unescape`, run on input that passed the scan. -/
def unescapeLoop : Str → Str
  | [] => []
  | c :: rest =>
    if c = 37 then
      match rest with
      | a :: b :: rest2 => ((unhex a <<< 4) ||| unhex b) :: unescapeLoop rest2
      | _ => []
    else if c = 43 then 32 :: unescapeLoop rest
    else c :: unescapeLoop rest

/-- `unescape(s, encodeQueryComponent)`: the decoded string and the error. On
an error the returned string is empty. -/
def unescape (s : Str) : Str × Option Str :=
  match unescapeScan s with
  | .error e => ([], some e)
  | .ok (n, hasPlus) =>
    if n = 0 ∧ hasPlus = false then (s, none) else (unescapeLoop s, none)

/-- `url.QueryUnescape`. -/
def QueryUnescape (s : Str) : Str × Option Str := unescape s

/-! ## `unicode/utf8`: decoding and encoding one rune -/

/-- `utf8.RuneError`, the replacement character U+FFFD. -/
def RuneError : Nat := 0xFFFD

/-- The table `first`: information about the first byte of a UTF-8 sequence.
`0xF0` marks ASCII, `0xF1` an invalid first byte; otherwise the low three bits
give the length and the high four bits index `acceptRanges`. -/
def first (b : Byte) : Nat :=
  if b < 0x80 then 0xF0
  else if b < 0xC2 then 0xF1
  else if b < 0xE0 then 0x02
  else if b = 0xE0 then 0x13
  else if b < 0xED then 0x03
  else if b = 0xED then 0x23
  else if b < 0xF0 then 0x03
  else if b = 0xF0 then 0x34
  else if b < 0xF4 then 0x04
  else if b = 0xF4 then 0x44
  else 0xF1

/-- The table `acceptRanges`: the range allowed for the second byte. -/
def acceptRanges (k : Nat) : Byte × Byte :=
  match k with
  | 0 => (0x80, 0xBF)
  | 1 => (0xA0, 0xBF)
  | 2 => (0x80, 0x9F)
  | 3 => (0x90, 0xBF)
  | 4 => (0x80, 0x8F)
  | _ => (0, 0)

/-- `utf8.DecodeRuneInString`: the rune at the start of `s` and its width in
bytes; an invalid encoding gives `(RuneError, 1)`. -/
def DecodeRuneInString (s : Str) : Nat × Nat :=
  match s with
  | [] => (RuneError, 0)
  | s0 :: rest =>
    let x := first s0
    if x ≥ 0xF0 then (if x = 0xF0 then s0.val else RuneError, 1)
    else
      let sz := x % 8
      let accept := acceptRanges (x / 16)
      if s.length < sz then (RuneError, 1)
      else
        match rest with
        | [] => (RuneError, 1)
        | s1 :: rest1 =>
          if s1 < accept.1 ∨ accept.2 < s1 then (RuneError, 1)
          else if sz ≤ 2 then (((s0.val &&& 0x1F) <<< 6) ||| (s1.val &&& 0x3F), 2)
          else
            match rest1 with
            | [] => (RuneError, 1)
            | s2 :: rest2 =>
              if s2 < 0x80 ∨ 0xBF < s2 then (RuneError, 1)
              else if sz ≤ 3 then
                (((s0.val &&& 0x0F) <<< 12) ||| ((s1.val &&& 0x3F) <<< 6)
                  ||| (s2.val &&& 0x3F), 3)
              else
                match rest2 with
                | [] => (RuneError, 1)
                | s3 :: _ =>
                  if s3 < 0x80 ∨ 0xBF < s3 then (RuneError, 1)
                  else
                    (((s0.val &&& 0x07) <<< 18) ||| ((s1.val &&& 0x3F) <<< 12)
                      ||| ((s2.val &&& 0x3F) <<< 6) ||| (s3.val &&& 0x3F), 4)

/-- `byte(x)`: conversion of an integer to a byte keeps the low eight bits. -/
def toByte (x : Nat) : Byte := Fin.ofNat (x % 256)

/-- `utf8.AppendRune` on an empty buffer: the UTF-8 encoding of `r`. -/
def AppendRune (r : Nat) : Str :=
  if r ≤ 0x7F then [toByte r]
  else if r ≤ 0x7FF then [toByte (0xC0 ||| (r >>> 6)), toByte (0x80 ||| (r &&& 0x3F))]
  else
    let r3 := if r > 0x10FFFF ∨ (0xD800 ≤ r ∧ r ≤ 0xDFFF) then RuneError else r
    if r3 = RuneError ∨ r ≤ 0xFFFF then
      [toByte (0xE0 ||| (r3 >>> 12)), toByte (0x80 ||| ((r3 >>> 6) &&& 0x3F)),
        toByte (0x80 ||| (r3 &&& 0x3F))]
    else
      [toByte (0xF0 ||| (r >>> 18)), toByte (0x80 ||| ((r >>> 12) &&& 0x3F)),
        toByte (0x80 ||| ((r >>> 6) &&& 0x3F)), toByte (0x80 ||| (r &&& 0x3F))]

/-! ## `strconv.Quote` -/

/-- The table `lowerhex = "0123456789abcdef"`. -/
def lowerhex (i : Byte) : Byte := (lit "0123456789abcdef").getD i.val 0

/-- `appendEscapedRune` for one ASCII byte, double quote as the quote character:
the quote and the backslash get a backslash, printable ASCII is copied, the
control characters get their short or `\x` escape. -/
def quoteByte (c : Byte) : Str :=
  if c = 34 ∨ c = 92 then [92, c]
  else if 0x20 ≤ c ∧ c < 0x7F then [c]
  else if c = 7 then lit "\\a"
  else if c = 8 then lit "\\b"
  else if c = 12 then lit "\\f"
  else if c = 10 then lit "\\n"
  else if c = 13 then lit "\\r"
  else if c = 9 then lit "\\t"
  else if c = 11 then lit "\\v"
  else [92, 120, lowerhex (c >>> 4), lowerhex (c &&& 15)]

/-- `strconv.Quote` on a string of ASCII bytes. A string with a byte from
`0x80` on needs the Unicode tables of `unicode.IsPrint`, which are not part of
this development: the result is `none` there. -/
def Quote (s : Str) : Option Str :=
  if s.all (fun c => c < 0x80) then some ([34] ++ s.flatMap quoteByte ++ [34]) else none

/-! ## `fmt`: interpretation of a format string

The operands of every formatting call in `main.go` are strings (an `error`
operand is passed as its message), so an operand is a `Str`. -/

/-- `tooLarge`: a width, precision or argument index above one million. -/
def tooLarge (x : Nat) : Bool := decide (x > 1000000)

/-- Loop of `parsenum`: reads decimal digits; an overly long number gives up and
skips to the end of the range. -/
def parsenumLoop : Str → Nat → Bool → Nat × Bool × Str
  | [], num, isnum => (num, isnum, [])
  | c :: rest, num, isnum =>
    if 48 ≤ c ∧ c ≤ 57 then
      if tooLarge num then (0, false, [])
      else parsenumLoop rest (num * 10 + (c.val - 48)) true
    else (num, isnum, c :: rest)

/-- `parsenum(s, start, end)` on the bytes between `start` and `end`: the number,
whether one was read, and the bytes left. -/
def parsenum (s : Str) : Nat × Bool × Str :=
  match s with
  | [] => (0, false, [])
  | _ => parsenumLoop s 0 false

/-- `parseArgNumber(format)` for a format that starts with `[`: the zero-based
index, the rest of the format after the bracket, and whether `[n]` was well
formed. -/
def parseArgNumber (format : Str) : Int × Str × Bool :=
  if format.length < 3 then (0, format.drop 1, false)
  else
    let body := format.drop 1
    let inner := body.takeWhile (fun c => c ≠ 93)
    match body.dropWhile (fun c => c ≠ 93) with
    | [] => (0, format.drop 1, false)
    | _ :: after =>
      let (width, ok, left) := parsenum inner
      if ok = false ∨ left ≠ [] then (0, after, false)
      else ((width : Int) - 1, after, true)

/-- The part of the printer state `pp` that decides the output. -/
structure pp where
  /-- Output produced so far. -/
  buf : Str
  /-- An explicit argument index was seen. -/
  reordered : Bool
  /-- The argument index of the current directive is usable. -/
  goodArgNum : Bool

/-- `argNumber`: reads an optional `[n]` in front of `format`. -/
def argNumber (p : pp) (argNum : Nat) (format : Str) (numArgs : Nat) :
    pp × Nat × Str × Bool :=
  match format with
  | 91 :: _ =>
    let p1 := { p with reordered := true }
    let (index, rest, ok) := parseArgNumber format
    if ok = true ∧ 0 ≤ index ∧ index < (numArgs : Int) then (p1, index.toNat, rest, true)
    else ({ p1 with goodArgNum := false }, argNum, rest, ok)
  | _ => (p, argNum, format, false)

/-- `printArg` for a string operand. The verbs `%s` and `%v` write the string,
`%q` writes it quoted. `plain` says that the directive has no flag, width or
precision; main.go uses no other directive with an operand, and the result is
`none` for the ones not covered. -/
def printArg (arg : Str) (verb : Nat) (plain : Bool) : Option Str :=
  if plain = false then none
  else if verb = 115 ∨ verb = 118 then some arg
  else if verb = 113 then Quote arg
  else none

/-- The flag characters `#`, `0`, `+`, `-` and space. -/
def isFlag (c : Byte) : Bool := c = 35 ∨ c = 48 ∨ c = 43 ∨ c = 45 ∨ c = 32

/-- The width of a directive: `*` takes it from the operands, and as no operand
is an integer writes `%!(BADWIDTH)`; otherwise decimal digits are read. Returns
the printer state, the operand index, the rest of the format, whether a width is
present, and `afterIndex`. -/
def parseWidth (a : List Str) (p : pp) (argNum : Nat) (format : Str) (afterIndex : Bool) :
    pp × Nat × Str × Bool × Bool :=
  match format with
  | 42 :: r =>
    ({ p with buf := p.buf ++ lit "%!(BADWIDTH)" },
      (if argNum < a.length then argNum + 1 else argNum), r, false, false)
  | _ =>
    match parsenum format with
    | (_, present, r) =>
      ((if afterIndex = true ∧ present = true then { p with goodArgNum := false } else p),
        argNum, r, present, afterIndex)

/-- The precision of a directive, introduced by `.`: again `*` (which writes
`%!(BADPREC)`) or decimal digits, after an optional argument index. -/
def parsePrecision (a : List Str) (p : pp) (argNum : Nat) (format : Str) (afterIndex : Bool) :
    pp × Nat × Str × Bool × Bool :=
  match format with
  | 46 :: r =>
    match argNumber (if afterIndex = true then { p with goodArgNum := false } else p)
        argNum r a.length with
    | (q1, n1, r1, ai) =>
      match r1 with
      | 42 :: r2 =>
        ({ q1 with buf := q1.buf ++ lit "%!(BADPREC)" },
          (if n1 < a.length then n1 + 1 else n1), r2, false, false)
      | _ =>
        match parsenum r1 with
        | (_, _, r2) => (q1, n1, r2, true, ai)
  | _ => (p, argNum, format, false, afterIndex)

/-- The verb of a directive and what it prints. The rest of the format is `none`
when the format ended before the verb (`%!(NOVERB)`, which leaves the loop). -/
def printVerb (a : List Str) (p : pp) (argNum : Nat) (format : Str) (plain : Bool) :
    Option (pp × Nat × Option Str) :=
  match format with
  | [] => some ({ p with buf := p.buf ++ lit "%!(NOVERB)" }, argNum, none)
  | c :: _ =>
    match (if c.val ≥ 0x80 then DecodeRuneInString format else (c.val, 1)) with
    | (verb, size) =>
      if verb = 37 then some ({ p with buf := p.buf ++ [37] }, argNum, some (format.drop size))
      else if p.goodArgNum = false then
        some ({ p with buf := p.buf ++ lit "%!" ++ AppendRune verb ++ lit "(BADINDEX)" },
          argNum, some (format.drop size))
      else if argNum ≥ a.length then
        some ({ p with buf := p.buf ++ lit "%!" ++ AppendRune verb ++ lit "(MISSING)" },
          argNum, some (format.drop size))
      else
        match printArg (a.getD argNum []) verb plain with
        | none => none
        | some out => some ({ p with buf := p.buf ++ out }, argNum + 1, some (format.drop size))

/-- One directive of `doPrintf`, read from the bytes that follow its `%`: flags,
then either the fast path of a lower-case verb with an operand at hand, or
argument index, width, precision, argument index and verb. -/
def directive (a : List Str) (p : pp) (argNum : Nat) (format : Str) :
    Option (pp × Nat × Option Str) :=
  match format.dropWhile isFlag with
  | f2 =>
    if 0 < f2.length ∧ 97 ≤ f2.headD 0 ∧ f2.headD 0 ≤ 122 ∧ argNum < a.length then
      match printArg (a.getD argNum []) (f2.headD 0).val (decide (f2 = format)) with
      | none => none
      | some out => some ({ p with buf := p.buf ++ out }, argNum + 1, some f2.tail)
    else
      match argNumber p argNum f2 a.length with
      | (p1, argNum1, f3, afterIndex1) =>
        match parseWidth a p1 argNum1 f3 afterIndex1 with
        | (p2, argNum2, f4, widPresent, afterIndex2) =>
          match parsePrecision a p2 argNum2 f4 afterIndex2 with
          | (p3, argNum3, f5, precPresent, afterIndex3) =>
            match (if afterIndex3 = true then (p3, argNum3, f5, afterIndex3)
                else argNumber p3 argNum3 f5 a.length) with
            | (p4, argNum4, f6, _) =>
              printVerb a p4 argNum4 f6 (decide (f2 = format) && !widPresent && !precPresent)

/-- The `formatLoop` of `doPrintf`: text up to the next `%` is copied, then one
directive is read. `fuel` bounds the number of directives; every directive
consumes its `%`, so the length of the format plus one is enough. Returns the
printer state and the number of operands used. -/
def formatLoop (a : List Str) : Nat → Str → Nat → pp → Option (pp × Nat)
  | 0, _, _, _ => none
  | fuel + 1, format, argNum, p =>
    match format.dropWhile (fun c => c ≠ 37) with
    | [] => some ({ p with goodArgNum := true, buf := p.buf ++ format }, argNum)
    | _ :: f1 =>
      match directive a
          { p with goodArgNum := true, buf := p.buf ++ format.takeWhile (fun c => c ≠ 37) }
          argNum f1 with
      | none => none
      | some (p1, argNum1, none) => some (p1, argNum1)
      | some (p1, argNum1, some rest) => formatLoop a fuel rest argNum1 p1

/-- The report of unused operands that ends `doPrintf`:
`%!(EXTRA string=..., string=...)`. -/
def extraArgs (rest : List Str) : Str :=
  lit "%!(EXTRA " ++ (lit ", ").intercalate (rest.map (fun arg => lit "string=" ++ arg)) ++ lit ")"

/-- `doPrintf(format, a)`: the text that `fmt.Fprintf(w, format, a...)` hands to
the writer; `none` when an operand meets a directive that `printArg` above does
not cover. -/
def doPrintf (format : Str) (a : List Str) : Option Str :=
  match formatLoop a (format.length + 1) format 0 { buf := [], reordered := false, goodArgNum := true } with
  | none => none
  | some (p, argNum) =>
    if p.reordered = false ∧ argNum < a.length then some (p.buf ++ extraArgs (a.drop argNum))
    else some p.buf

/-! ## The process: inputs, streams and termination -/

/-- What a run of the program reads. The four flags are the values left by
`flag.Parse()`; `stdinLines` are the tokens that `scanner.Scan()` yields on
standard input and `stdinErr` the message of `scanner.Err()` after the last one. -/
structure Env where
  /-- The value of `--decode`. -/
  flagDecode : Bool
  /-- The value of `--encode`. -/
  flagEncode : Bool
  /-- The value of `--help`. -/
  flagHelp : Bool
  /-- The value of `--stdin`. -/
  flagStdin : Bool
  /-- The positional arguments: `flag.Arg(0)`, ..., `flag.Arg(flag.NArg()-1)`. -/
  args : List Str
  /-- The program name `os.Args[0]`. -/
  programName : Str
  /-- The text that `flag.PrintDefaults()` prints. -/
  flagDefaults : Str
  /-- The lines read from standard input. -/
  stdinLines : List Str
  /-- The read error that ended the scan, if any. -/
  stdinErr : Option Str

/-- The two output streams. Each has the bytes written so far and the results of
the coming writes: `none` for a write that succeeds, `some e` for one that fails
with the error text `e` and writes nothing; past the end of the list every write
succeeds. -/
structure World where
  /-- Bytes written to `os.Stdout`. -/
  stdout : Str
  /-- Bytes written to `os.Stderr`. -/
  stderr : Str
  /-- Results of the coming writes to `os.Stdout`. -/
  stdoutFaults : List (Option Str)
  /-- Results of the coming writes to `os.Stderr`. -/
  stderrFaults : List (Option Str)

/-- One `Write` on `os.Stdout`: the new world and the error. -/
def World.writeStdout (w : World) (data : Str) : World × Option Str :=
  match w.stdoutFaults with
  | [] => ({ w with stdout := w.stdout ++ data }, none)
  | none :: rest => ({ w with stdout := w.stdout ++ data, stdoutFaults := rest }, none)
  | some e :: rest => ({ w with stdoutFaults := rest }, some e)

/-- One `Write` on `os.Stderr`: the new world and the error. -/
def World.writeStderr (w : World) (data : Str) : World × Option Str :=
  match w.stderrFaults with
  | [] => ({ w with stderr := w.stderr ++ data }, none)
  | none :: rest => ({ w with stderr := w.stderr ++ data, stderrFaults := rest }, none)
  | some e :: rest => ({ w with stderrFaults := rest }, some e)

/-- How a call ends. -/
inductive Res (α : Type) where
  /-- The call returned `a`. -/
  | ok (a : α) (w : World)
  /-- The process ended in `os.Exit(code)`. -/
  | exit (code : Nat) (w : World)
  /-- The process ended in a run-time panic (a nil function value was called). -/
  | panic (w : World)
  /-- A formatting call met a directive that `printArg` does not cover. -/
  | uncovered (w : World)

/-- A Go function of the program: it acts on the streams and returns, or ends
the process. -/
def Proc (α : Type) : Type := World → Res α

/-- Sequencing: the rest runs only if the first call returned. -/
def Proc.bind {α β : Type} (x : Proc α) (f : α → Proc β) : Proc β := fun w =>
  match x w with
  | .ok a w1 => f a w1
  | .exit code w1 => .exit code w1
  | .panic w1 => .panic w1
  | .uncovered w1 => .uncovered w1

instance : Monad Proc where
  pure a := fun w => .ok a w
  bind := Proc.bind

/-! ## `main.go` -/

/-- `exit`: `os.Exit(int(code))`; it does not return. -/
def exit (code : Nat) : Proc Unit := fun w => .exit code w

/-- `stderrf`: formats to `os.Stderr`; a failed write ends the process with
`exitIOError` and no further report. -/
def stderrf (format : Str) (args : List Str) : Proc Unit := fun w =>
  match doPrintf format args with
  | none => .uncovered w
  | some text =>
    match w.writeStderr text with
    | (w1, none) => .ok () w1
    | (w1, some _) => exit exitIOError w1

/-- `stdoutf`: formats to `os.Stdout`; a failed write is reported on the error
stream and ends the process with `exitIOError`. -/
def stdoutf (format : Str) (args : List Str) : Proc Unit := fun w =>
  match doPrintf format args with
  | none => .uncovered w
  | some text =>
    match w.writeStdout text with
    | (w1, none) => .ok () w1
    | (w1, some err) =>
      (do stderrf (lit "stdout write failed: %v\n") [err]
          exit exitIOError) w1

/-- `flag.PrintDefaults()`: prints the flag descriptions to the output of the
command line, which `main` set to `os.Stderr`; a write error is ignored. -/
def PrintDefaults (env : Env) : Proc Unit := fun w =>
  .ok () (w.writeStderr env.flagDefaults).1

/-- `usage`. -/
def usage (env : Env) : Proc Unit := do
  let programName := env.programName
  stderrf (lit "%s is an encoder and decoder for percent-encoding (a.k.a. URI-encoding)\n\n")
    [programName]
  PrintDefaults env

/-- The type `transcoder`: `func(string) string`. -/
abbrev transcoder : Type := Str → Proc Str

/-- The type `runner`: `func(transcoder)`. A variable of type `transcoder` may
hold nil, hence the `Option`. -/
abbrev runner : Type := Option transcoder → Proc Unit

/-- `encoder`. -/
def encoder : transcoder := fun s => do
  let encoded := QueryEscape s
  return encoded

/-- `decoder`. -/
def decoder : transcoder := fun s => do
  let (decoded, err) := QueryUnescape s
  if err ≠ none then
    stderrf (lit "bad encoding: %q\n") [decoded]
    exit exitDecodeError
  return decoded

/-- A call through a variable of type `transcoder`: the nil value panics. -/
def callTranscoder (t : Option transcoder) (input : Str) : Proc Str :=
  match t with
  | none => fun w => .panic w
  | some f => f input

/-- The loop of `runArgs` over the positional arguments that are left. -/
def runArgsLoop (t : Option transcoder) : List Str → Proc Unit
  | [] => pure ()
  | input :: rest => do
    let output ← callTranscoder t input
    stdoutf (lit "%s\n") [output]
    runArgsLoop t rest

/-- `runArgs`. -/
def runArgs (env : Env) : runner := fun t =>
  runArgsLoop t env.args

/-- The loop of `runStdin` over the lines that are left. The transformed line
itself, with a newline appended, is the format string of `stdoutf`. -/
def runStdinLoop (t : Option transcoder) : List Str → Proc Unit
  | [] => pure ()
  | input :: rest => do
    let output ← callTranscoder t input
    stdoutf (output ++ lit "\n") []
    runStdinLoop t rest

/-- `runStdin`. -/
def runStdin (env : Env) : runner := fun t => do
  runStdinLoop t env.stdinLines
  match env.stdinErr with
  | some err =>
    stderrf (lit "stdin read failed: %v\n") [err]
    exit exitIOError
  | none => pure ()

/-- The conflict diagnostic of `main`. -/
def conflictMessage : Str :=
  lit "decode and encode are both set. I don" ++ [39] ++ lit "t know what to do.\n"

/-- The mode switch of `main`: the value of the variable `transcoder` after it.
The second `case *flagDecode:` has an empty body and leaves the variable nil. -/
def modeSwitch (env : Env) : Proc (Option transcoder) :=
  if env.flagDecode && env.flagEncode then do
    stderrf conflictMessage []
    exit exitUsage
    return none
  else if env.flagDecode then return some decoder
  else if env.flagDecode then return none
  else return some encoder

/-- `main`, after `flag.Parse()`. -/
def main (env : Env) : Proc Unit := do
  if env.flagHelp then
    usage env
    exit exitUsage
  let t ← modeSwitch env
  let r : runner := if env.flagStdin then runStdin env else runArgs env
  r t

/-- The exit status of the process when the call is that of `main`: the code
given to `os.Exit`, 0 when `main` returns, 2 after a panic. -/
def exitStatus {α : Type} : Res α → Option Nat
  | .ok _ _ => some 0
  | .exit code _ => some code
  | .panic _ => some 2
  | .uncovered _ => none

/-- The world in which a call ended. -/
def Res.world {α : Type} : Res α → World
  | .ok _ w => w
  | .exit _ w => w
  | .panic w => w
  | .uncovered w => w

/-- A world with nothing written yet and no failing write. -/
def World.init : World := { stdout := [], stderr := [], stdoutFaults := [], stderrFaults := [] }

/-! ## Predicates used in the statements -/

/-- An unreserved character: an ASCII letter, a digit, or one of `-`, `_`, `.`,
`~`. -/
def isUnreserved (c : Byte) : Bool :=
  (97 ≤ c && c ≤ 122) || (65 ≤ c && c ≤ 90) || (48 ≤ c && c ≤ 57)
    || c = 45 || c = 95 || c = 46 || c = 126

/-- The string starts with two hex digits. -/
def startsWithTwoHex : Str → Bool
  | a :: b :: _ => ishex a && ishex b
  | _ => false

/-- The string contains a `%` that is not followed by two hex digits. -/
def hasBadEscape : Str → Bool
  | [] => false
  | c :: rest => (c = 37 && !startsWithTwoHex rest) || hasBadEscape rest

/-- The next write to the error stream succeeds. -/
def World.stderrReady (w : World) : Bool :=
  match w.stderrFaults with
  | some _ :: _ => false
  | _ => true

/-- The world after `text` has been appended to the error stream by one
successful write. -/
def World.afterStderr (w : World) (text : Str) : World :=
  { w with stderr := w.stderr ++ text, stderrFaults := w.stderrFaults.tail }

/-- The world after `text` has been appended to standard output by one successful
write. -/
def World.afterStdout (w : World) (text : Str) : World :=
  { w with stdout := w.stdout ++ text, stdoutFaults := w.stdoutFaults.tail }

/-- The line that introduces the usage text, after the program name. -/
def usageHeadline : Str :=
  lit " is an encoder and decoder for percent-encoding (a.k.a. URI-encoding)\n\n"

/-- The diagnostic that `decoder` writes: `decoded` is empty whenever
`QueryUnescape` reports an error. -/
def badEncodingMessage : Str := lit "bad encoding: \"\"\n"

/-- The string that the transcoder selected by the flags returns for `a` when it
returns: `decoder` gives the first result of `QueryUnescape`, `encoder` the
result of `QueryEscape`. -/
def transcoded (env : Env) (a : Str) : Str :=
  if env.flagDecode then (QueryUnescape a).1 else QueryEscape a

/-! ## Inputs used in the examples -/

/-- Encode mode on the two lines `a b` and `c+d` of standard input. -/
def stdinExample : Env :=
  { flagDecode := false, flagEncode := true, flagHelp := false, flagStdin := true
    args := [], programName := lit "urixcode", flagDefaults := []
    stdinLines := [lit "a b", lit "c+d"], stdinErr := none }

/-- Decode mode on the two positional arguments `a%2Bb` and `c+d`. -/
def argsExample : Env :=
  { flagDecode := true, flagEncode := false, flagHelp := false, flagStdin := false
    args := [lit "a%2Bb", lit "c+d"], programName := lit "urixcode", flagDefaults := []
    stdinLines := [], stdinErr := none }

/-- Both mode flags set, with a positional argument and standard input selected. -/
def conflictExample : Env :=
  { flagDecode := true, flagEncode := true, flagHelp := false, flagStdin := true
    args := [lit "x"], programName := lit "urixcode", flagDefaults := []
    stdinLines := [lit "a b"], stdinErr := none }

/-- The help flag together with every other flag. -/
def helpExample : Env :=
  { flagDecode := true, flagEncode := true, flagHelp := true, flagStdin := true
    args := [lit "x"], programName := lit "urixcode", flagDefaults := lit "  -D, --decode\n"
    stdinLines := [lit "a b"], stdinErr := none }

/-! ## Facts about single bytes -/

set_option maxRecDepth 100000

theorem shouldEscape_of_unreserved :
    ∀ c : Byte, isUnreserved c = true → shouldEscape c = false := by decide

theorem kept_byte_plain :
    ∀ c : Byte, shouldEscape c = false → c ≠ 37 ∧ c ≠ 43 ∧ c ≠ 32 := by decide

theorem space_escaped : shouldEscape 32 = true := by decide

theorem ishex_upperhex_hi : ∀ c : Byte, ishex (upperhex (c >>> 4)) = true := by decide

theorem ishex_upperhex_lo : ∀ c : Byte, ishex (upperhex (c &&& 15)) = true := by decide

theorem unhex_upperhex :
    ∀ c : Byte, ((unhex (upperhex (c >>> 4)) <<< 4) ||| unhex (upperhex (c &&& 15))) = c := by
  decide

theorem ishex_ne_percent : ∀ c : Byte, ishex c = true → c ≠ 37 := by decide

/-! ## `escape` and `unescape` on whole strings -/

theorem escapeCount_snd_zero (s : Str) (h : (escapeCount s).2 = 0) :
    escapeLoop s = s.map (fun c => if c = 32 then 43 else c) := by
  induction s with
  | nil => rfl
  | cons c rest ih =>
    rcases hc : escapeCount rest with ⟨sp, hx⟩
    simp only [escapeCount, hc] at h
    by_cases h32 : c = 32
    · subst h32
      have hx0 : hx = 0 := by simpa [space_escaped] using h
      have := ih (by rw [hc]; exact hx0)
      simp [escapeLoop, this]
    · by_cases hs : shouldEscape c = true
      · simp [hs, h32] at h
      · have hx0 : hx = 0 := by simpa [hs] using h
        have := ih (by rw [hc]; exact hx0)
        simp [escapeLoop, h32, hs, this]

theorem escapeCount_zero (s : Str) (h1 : (escapeCount s).1 = 0) (h2 : (escapeCount s).2 = 0) :
    s.map (fun c => if c = 32 then 43 else c) = s := by
  induction s with
  | nil => rfl
  | cons c rest ih =>
    rcases hc : escapeCount rest with ⟨sp, hx⟩
    simp only [escapeCount, hc] at h1 h2
    by_cases h32 : c = 32
    · subst h32
      simp [space_escaped] at h1
    · by_cases hs : shouldEscape c = true
      · simp [hs, h32] at h2
      · have hsp : sp = 0 := by simpa [hs] using h1
        have hx0 : hx = 0 := by simpa [hs] using h2
        have := ih (by rw [hc]; exact hsp) (by rw [hc]; exact hx0)
        simp [h32, this]

/-- The two shortcuts of `escape` give what its general loop gives. -/
theorem escape_eq_escapeLoop (s : Str) : escape s = escapeLoop s := by
  unfold escape
  rcases hc : escapeCount s with ⟨sp, hx⟩
  simp only
  by_cases hx0 : hx = 0
  · have hl := escapeCount_snd_zero s (by rw [hc]; exact hx0)
    by_cases hs0 : sp = 0
    · have hm := escapeCount_zero s (by rw [hc]; exact hs0) (by rw [hc]; exact hx0)
      simp [hx0, hs0, hl, hm]
    · simp [hx0, hs0, hl]
  · simp [hx0]

theorem escapeCount_of_kept (s : Str) (h : ∀ c ∈ s, shouldEscape c = false) :
    escapeCount s = (0, 0) := by
  induction s with
  | nil => rfl
  | cons c rest ih =>
    have hr := ih (fun d hd => h d (List.mem_cons_of_mem c hd))
    have hc := h c (List.mem_cons_self c rest)
    simp [escapeCount, hr, hc]

theorem QueryEscape_of_unreserved (s : Str) (h : ∀ c ∈ s, isUnreserved c = true) :
    QueryEscape s = s := by
  have hk := escapeCount_of_kept s (fun c hc => shouldEscape_of_unreserved c (h c hc))
  simp [QueryEscape, escape, hk]

theorem unescapeScan_plus (rest : Str) :
    unescapeScan (43 :: rest) =
      (match unescapeScan rest with
        | .ok (n, _) => .ok (n, true)
        | .error e => .error e) := by
  rcases rest with _ | ⟨a, _ | ⟨b, r⟩⟩ <;> simp [unescapeScan]

theorem unescapeScan_other (c : Byte) (rest : Str) (h37 : c ≠ 37) (h43 : c ≠ 43) :
    unescapeScan (c :: rest) = unescapeScan rest := by
  rcases rest with _ | ⟨a, _ | ⟨b, r⟩⟩ <;> simp [unescapeScan, h37, h43]

theorem unescapeScan_percent (a b : Byte) (rest : Str) :
    unescapeScan (37 :: a :: b :: rest) =
      if (ishex a && ishex b) = true then
        (match unescapeScan rest with
          | .ok (n, hasPlus) => .ok (n + 1, hasPlus)
          | .error e => .error e)
      else .error [37, a, b] := by
  simp [unescapeScan]

theorem unescapeLoop_plus (rest : Str) :
    unescapeLoop (43 :: rest) = 32 :: unescapeLoop rest := by
  rcases rest with _ | ⟨a, _ | ⟨b, r⟩⟩ <;> simp [unescapeLoop]

theorem unescapeLoop_other (c : Byte) (rest : Str) (h37 : c ≠ 37) (h43 : c ≠ 43) :
    unescapeLoop (c :: rest) = c :: unescapeLoop rest := by
  rcases rest with _ | ⟨a, _ | ⟨b, r⟩⟩ <;> simp [unescapeLoop, h37, h43]

theorem unescapeLoop_percent (a b : Byte) (rest : Str) :
    unescapeLoop (37 :: a :: b :: rest) = ((unhex a <<< 4) ||| unhex b) :: unescapeLoop rest := by
  simp [unescapeLoop]

theorem unescapeScan_escapeLoop (s : Str) :
    ∃ n hasPlus, unescapeScan (escapeLoop s) = .ok (n, hasPlus) := by
  induction s with
  | nil => exact ⟨0, false, rfl⟩
  | cons c rest ih =>
    obtain ⟨n, p, hr⟩ := ih
    by_cases h32 : c = 32
    · refine ⟨n, true, ?_⟩
      simp [escapeLoop, h32, unescapeScan_plus, hr]
    · by_cases hs : shouldEscape c = true
      · refine ⟨n + 1, p, ?_⟩
        simp [escapeLoop, h32, hs, unescapeScan_percent, hr, ishex_upperhex_hi,
          ishex_upperhex_lo]
      · have hs2 : shouldEscape c = false := by simpa using hs
        obtain ⟨h37, h43, _⟩ := kept_byte_plain c hs2
        refine ⟨n, p, ?_⟩
        simp [escapeLoop, h32, hs, unescapeScan_other, hr, h37, h43]

theorem unescapeLoop_escapeLoop (s : Str) : unescapeLoop (escapeLoop s) = s := by
  induction s with
  | nil => rfl
  | cons c rest ih =>
    by_cases h32 : c = 32
    · simp [escapeLoop, h32, unescapeLoop_plus, ih]
    · by_cases hs : shouldEscape c = true
      · simp [escapeLoop, h32, hs, unescapeLoop_percent, ih, unhex_upperhex]
      · have hs2 : shouldEscape c = false := by simpa using hs
        obtain ⟨h37, h43, _⟩ := kept_byte_plain c hs2
        simp [escapeLoop, h32, hs, unescapeLoop_other, ih, h37, h43]

theorem unescapeScan_percent_ne_zero (rest : Str) :
    unescapeScan (37 :: rest) ≠ .ok (0, false) := by
  rcases rest with _ | ⟨a, _ | ⟨b, r⟩⟩
  · simp [unescapeScan]
  · simp [unescapeScan]
  · rw [unescapeScan_percent]
    split
    · split <;> simp
    · simp

theorem unescapeLoop_of_scan_zero (t : Str) (h : unescapeScan t = .ok (0, false)) :
    unescapeLoop t = t := by
  induction t with
  | nil => rfl
  | cons c rest ih =>
    by_cases h37 : c = 37
    · subst h37
      exact absurd h (unescapeScan_percent_ne_zero rest)
    · by_cases h43 : c = 43
      · subst h43
        exfalso
        rw [unescapeScan_plus] at h
        split at h <;> simp at h
      · rw [unescapeScan_other c rest h37 h43] at h
        rw [unescapeLoop_other c rest h37 h43, ih h]

/-- Unescaping an escaped string gives the string back, without an error. -/
theorem QueryUnescape_QueryEscape (s : Str) : QueryUnescape (QueryEscape s) = (s, none) := by
  obtain ⟨n, p, hscan⟩ := unescapeScan_escapeLoop s
  have hloop := unescapeLoop_escapeLoop s
  simp only [QueryUnescape, QueryEscape, escape_eq_escapeLoop, unescape, hscan]
  by_cases h0 : n = 0 ∧ p = false
  · obtain ⟨hn, hp⟩ := h0
    subst hn hp
    have := unescapeLoop_of_scan_zero _ hscan
    rw [hloop] at this
    simp [← this]
  · simp only [h0, if_false, hloop]

/-! ## The formatting calls of `main.go` -/

theorem doPrintf_string_line (x : Str) : doPrintf (lit "%s\n") [x] = some (x ++ lit "\n") := by
  rfl

theorem doPrintf_conflict : doPrintf conflictMessage [] = some conflictMessage := by
  decide

theorem doPrintf_usage (name : Str) :
    doPrintf (lit "%s is an encoder and decoder for percent-encoding (a.k.a. URI-encoding)\n\n")
      [name] = some (name ++ usageHeadline) := by
  rfl

theorem doPrintf_bad_encoding :
    doPrintf (lit "bad encoding: %q\n") [[]] = some badEncodingMessage := by
  decide

/-! ## Single calls -/

theorem Proc.pure_apply {α : Type} (a : α) (w : World) : (pure a : Proc α) w = .ok a w := rfl

theorem Proc.bind_apply {α β : Type} (x : Proc α) (f : α → Proc β) (w : World) :
    (x >>= f) w = Proc.bind x f w := rfl

theorem Proc.bind_ok {α β : Type} (x : Proc α) (f : α → Proc β) (w w1 : World) (a : α)
    (h : x w = .ok a w1) : Proc.bind x f w = f a w1 := by
  simp [Proc.bind, h]

theorem Proc.bind_exit {α β : Type} (x : Proc α) (f : α → Proc β) (w w1 : World) (code : Nat)
    (h : x w = .exit code w1) : Proc.bind x f w = .exit code w1 := by
  simp [Proc.bind, h]

theorem writeStderr_ready (w : World) (text : Str) (h : w.stderrReady = true) :
    w.writeStderr text = (w.afterStderr text, none) := by
  rcases w with ⟨o, e, fo, fe⟩
  rcases fe with _ | ⟨_ | x, rest⟩ <;>
    simp_all [World.writeStderr, World.afterStderr, World.stderrReady]

theorem stderrf_ready (format : Str) (args : List Str) (text : Str) (w : World)
    (hf : doPrintf format args = some text) (h : w.stderrReady = true) :
    stderrf format args w = .ok () (w.afterStderr text) := by
  simp [stderrf, hf, writeStderr_ready w text h]

theorem writeStdout_ready (w : World) (text : Str) (h : ∀ f ∈ w.stdoutFaults, f = none) :
    w.writeStdout text = (w.afterStdout text, none) := by
  rcases w with ⟨o, e, fo, fe⟩
  rcases fo with _ | ⟨_ | x, rest⟩ <;>
    simp_all [World.writeStdout, World.afterStdout]

theorem stdoutf_ready (format : Str) (args : List Str) (text : Str) (w : World)
    (hf : doPrintf format args = some text) (h : ∀ f ∈ w.stdoutFaults, f = none) :
    stdoutf format args w = .ok () (w.afterStdout text) := by
  simp [stdoutf, hf, writeStdout_ready w text h]

theorem encoder_apply (s : Str) (w : World) : encoder s w = .ok (QueryEscape s) w := rfl

theorem decoder_of_ok (s : Str) (w : World) (h : (QueryUnescape s).2 = none) :
    decoder s w = .ok (QueryUnescape s).1 w := by
  rcases hq : QueryUnescape s with ⟨decoded, err⟩
  rw [hq] at h
  simp only at h
  subst h
  simp [decoder, hq, Proc.pure_apply]
  rfl

theorem QueryUnescape_fst_of_error (s : Str) (h : (QueryUnescape s).2 ≠ none) :
    (QueryUnescape s).1 = [] := by
  unfold QueryUnescape unescape at *
  split at h
  · rfl
  · split at h <;> simp at h

/-- On an input that `QueryUnescape` rejects, `decoder` writes the fixed
diagnostic and ends the process with `exitDecodeError`. -/
theorem decoder_of_error (s : Str) (w : World) (h : (QueryUnescape s).2 ≠ none)
    (hw : w.stderrReady = true) :
    decoder s w = .exit exitDecodeError (w.afterStderr badEncodingMessage) := by
  have h1 := QueryUnescape_fst_of_error s h
  rcases hq : QueryUnescape s with ⟨decoded, err⟩
  rw [hq] at h h1
  simp only at h h1
  subst h1
  have hs := stderrf_ready _ _ _ w doPrintf_bad_encoding hw
  simp [decoder, hq, h, Proc.bind_apply, Proc.bind, hs, exit]

/-! ## The scan of `unescape` and malformed escapes -/

theorem hasBadEscape_hex_cons (a : Byte) (rest : Str) (h : ishex a = true) :
    hasBadEscape (a :: rest) = hasBadEscape rest := by
  simp [hasBadEscape, ishex_ne_percent a h]

theorem unescapeScan_ok_iff_aux (n : Nat) :
    ∀ s : Str, s.length ≤ n → ((∃ r, unescapeScan s = .ok r) ↔ hasBadEscape s = false) := by
  induction n with
  | zero =>
    intro s hs
    have : s = [] := List.length_eq_zero.mp (Nat.le_zero.mp hs)
    subst this
    simp [unescapeScan, hasBadEscape]
  | succ n ih =>
    intro s hs
    rcases s with _ | ⟨c, rest⟩
    · simp [unescapeScan, hasBadEscape]
    · have hrest : rest.length ≤ n := by simpa using hs
      by_cases h37 : c = 37
      · subst h37
        rcases rest with _ | ⟨a, _ | ⟨b, r⟩⟩
        · simp [unescapeScan, hasBadEscape, startsWithTwoHex]
        · simp [unescapeScan, hasBadEscape, startsWithTwoHex]
        · have hr : r.length ≤ n := by
            simp only [List.length_cons] at hrest
            omega
          rw [unescapeScan_percent]
          by_cases hh : (ishex a && ishex b) = true
          · have ha : ishex a = true := by
              simp only [Bool.and_eq_true] at hh
              exact hh.1
            have hb : ishex b = true := by
              simp only [Bool.and_eq_true] at hh
              exact hh.2
            have hbad : hasBadEscape (37 :: a :: b :: r) = hasBadEscape r := by
              rw [hasBadEscape, hasBadEscape_hex_cons a _ ha, hasBadEscape_hex_cons b _ hb]
              simp [startsWithTwoHex, hh]
            rw [hbad, ← ih r hr, if_pos hh]
            constructor
            · rintro ⟨x, hx⟩
              cases hsr : unescapeScan r with
              | ok y => exact ⟨y, rfl⟩
              | error e => simp [hsr] at hx
            · rintro ⟨⟨k, p⟩, hy⟩
              exact ⟨(k + 1, p), by simp [hy]⟩
          · rw [if_neg hh]
            simp [hasBadEscape, startsWithTwoHex, hh]
      · have hbad : hasBadEscape (c :: rest) = hasBadEscape rest := by
          simp [hasBadEscape, h37]
        rw [hbad, ← ih rest hrest]
        by_cases h43 : c = 43
        · subst h43
          rw [unescapeScan_plus]
          constructor
          · rintro ⟨x, hx⟩
            cases hsr : unescapeScan rest with
            | ok y => exact ⟨y, rfl⟩
            | error e => simp [hsr] at hx
          · rintro ⟨⟨k, p⟩, hy⟩
            exact ⟨(k, true), by simp [hy]⟩
        · rw [unescapeScan_other c rest h37 h43]

/-- The function `QueryUnescape` reports an error exactly on the strings that
contain a `%` not followed by two hex digits. -/
theorem QueryUnescape_error_iff (s : Str) :
    (QueryUnescape s).2 ≠ none ↔ hasBadEscape s = true := by
  have h := unescapeScan_ok_iff_aux s.length s (Nat.le_refl _)
  unfold QueryUnescape unescape
  cases hs : unescapeScan s with
  | error e =>
    have : hasBadEscape s ≠ false := fun hf => by
      obtain ⟨r, hr⟩ := h.mpr hf
      rw [hs] at hr
      cases hr
    simpa using this
  | ok r =>
    have hf : hasBadEscape s = false := h.mp ⟨r, hs⟩
    rcases r with ⟨k, p⟩
    simp only [hf]
    split <;> simp

/-! ## The loops and `main` -/

theorem tail_drop {α : Type} (l : List α) (n : Nat) : l.tail.drop n = l.drop (n + 1) := by
  cases l <;> simp

theorem runArgsLoop_returns (t : transcoder) (f : Str → Str) (args : List Str) :
    ∀ w : World, (∀ a ∈ args, ∀ v : World, t a v = .ok (f a) v) →
      (∀ x ∈ w.stdoutFaults, x = none) →
      runArgsLoop (some t) args w =
        .ok () { w with
          stdout := w.stdout ++ (args.map (fun a => f a ++ lit "\n")).flatten
          stdoutFaults := w.stdoutFaults.drop args.length } := by
  induction args with
  | nil =>
    intro w _ _
    simp [runArgsLoop, Proc.pure_apply]
  | cons a rest ih =>
    intro w ht hw
    have h1 : callTranscoder (some t) a w = .ok (f a) w := ht a (List.mem_cons_self a rest) w
    have h2 := stdoutf_ready (lit "%s\n") [f a] _ w (doPrintf_string_line (f a)) hw
    have hw2 : ∀ x ∈ (w.afterStdout (f a ++ lit "\n")).stdoutFaults, x = none := by
      intro x hx
      exact hw x (List.mem_of_mem_tail hx)
    have h3 := ih (w.afterStdout (f a ++ lit "\n"))
      (fun b hb v => ht b (List.mem_cons_of_mem a hb) v) hw2
    simp only [runArgsLoop, Proc.bind_apply]
    rw [Proc.bind_ok _ _ _ _ _ h1, Proc.bind_apply, Proc.bind_ok _ _ _ _ _ h2, h3]
    simp [World.afterStdout, tail_drop, List.append_assoc]

theorem modeSwitch_decode (env : Env) (w : World) (hd : env.flagDecode = true)
    (he : env.flagEncode = false) : modeSwitch env w = .ok (some decoder) w := by
  simp [modeSwitch, hd, he, Proc.pure_apply]

theorem modeSwitch_encode (env : Env) (w : World) (hd : env.flagDecode = false) :
    modeSwitch env w = .ok (some encoder) w := by
  simp [modeSwitch, hd, Proc.pure_apply]

theorem modeSwitch_conflict (env : Env) (w : World) (hd : env.flagDecode = true)
    (he : env.flagEncode = true) (hw : w.stderrReady = true) :
    modeSwitch env w = .exit exitUsage (w.afterStderr conflictMessage) := by
  have hs := stderrf_ready conflictMessage [] _ w doPrintf_conflict hw
  simp [modeSwitch, hd, he, Proc.bind_apply, Proc.bind, hs, exit]

theorem main_no_help (env : Env) (w : World) (hh : env.flagHelp = false) :
    main env w =
      Proc.bind (modeSwitch env)
        (fun t => (if env.flagStdin then runStdin env else runArgs env) t) w := by
  simp [main, hh, Proc.bind_apply, Proc.bind, Proc.pure_apply]

theorem usage_ready (env : Env) (w : World) (hw : w.stderrReady = true) :
    usage env w =
      .ok () ((w.afterStderr (env.programName ++ usageHeadline)).writeStderr env.flagDefaults).1 := by
  have hs := stderrf_ready _ _ _ w (doPrintf_usage env.programName) hw
  simp [usage, Proc.bind_apply, Proc.bind, hs, PrintDefaults]

theorem main_help (env : Env) (w : World) (hh : env.flagHelp = true)
    (hw : w.stderrReady = true) :
    main env w =
      .exit exitUsage
        ((w.afterStderr (env.programName ++ usageHeadline)).writeStderr env.flagDefaults).1 := by
  have hu := usage_ready env w hw
  simp [main, hh, Proc.bind_apply, Proc.bind, hu, exit]

theorem writeStderr_stdout (w : World) (text : Str) : (w.writeStderr text).1.stdout = w.stdout := by
  unfold World.writeStderr
  split <;> rfl

/-! ## The claims -/

/-- C1. Round trip: for every string `s` (in particular every string of printable
characters) `encoder` returns `QueryEscape s` without touching the streams, and
`decoder` applied to that result returns exactly `s`, not taking its error
branch. -/
theorem decoder_encoder_round_trip (s : Str) (w : World) :
    encoder s w = .ok (QueryEscape s) w ∧ decoder (QueryEscape s) w = .ok s w ∧
      (encoder s >>= decoder) w = .ok s w := by
  have hq := QueryUnescape_QueryEscape s
  have hd : decoder (QueryEscape s) w = .ok s w := by
    have := decoder_of_ok (QueryEscape s) w (by rw [hq])
    rw [this, hq]
  refine ⟨rfl, hd, ?_⟩
  rw [Proc.bind_apply, Proc.bind_ok _ _ _ _ _ (encoder_apply s w), hd]

/-- C2, evaluated at the input of the spec. In encode mode on the standard-input
lines `a b` and `c+d`, `runStdin` hands `c%2Bd` followed by a newline to
`fmt.Fprintf` as the format string, so `%2B` is read as a formatting directive
without operand: standard output receives `c%!B(MISSING)d` as second line, which
is not the encoded line `c%2Bd`. -/
theorem stdin_mode_output_is_formatted :
    main stdinExample World.init =
        .ok () { World.init with stdout := lit "a+b\nc%!B(MISSING)d\n" } ∧
      encoder (lit "a b") World.init = .ok (lit "a+b") World.init ∧
      encoder (lit "c+d") World.init = .ok (lit "c%2Bd") World.init ∧
      lit "a+b\nc%!B(MISSING)d\n" ≠ lit "a+b\n" ++ lit "c%2Bd\n" ∧
      main { stdinExample with flagStdin := false, args := stdinExample.stdinLines } World.init =
        .ok () { World.init with stdout := lit "a+b\n" ++ lit "c%2Bd\n" } := by
  refine ⟨by rfl, by rfl, by rfl, by decide, by rfl⟩

/-- C3, evaluated at the input of the spec. On `%zz` the function `decoder` ends
the process with `exitDecodeError` and leaves standard output untouched, but the
diagnostic it writes quotes the empty string returned by `QueryUnescape`: the
input `%zz` does not occur in it. -/
theorem decoder_diagnostic_omits_input :
    decoder (lit "%zz") World.init =
        .exit exitDecodeError { World.init with stderr := lit "bad encoding: \"\"\n" } ∧
      ¬ (lit "%zz" <:+: lit "bad encoding: \"\"\n") := by
  refine ⟨by rfl, by decide⟩

/-- C4 as stated fails: the third and fourth constants are not 2 and 3. -/
theorem exit_codes_not_consecutive :
    ¬ (exitSuccess = 0 ∧ exitUsage = 1 ∧ exitIOError = 2 ∧ exitDecodeError = 3) := by
  decide

/-- C4, amended. The expression `1<<iota - 1` over the four constant
declarations gives `exitSuccess = 0`, `exitUsage = 1`, `exitIOError = 3` and
`exitDecodeError = 7`. -/
theorem exit_code_values :
    exitSuccess = 0 ∧ exitUsage = 1 ∧ exitIOError = 3 ∧ exitDecodeError = 7 := by
  decide

/-- C5. Argument mode: without `--help` and `--stdin`, with at most one mode flag
set, on positional arguments on which the selected transcoder `t` does not fail
(it returns `transcoded env a` on each of them), and when the writes to standard
output succeed, `main` returns, so the exit status is 0, after appending to
standard output exactly `t(a)` followed by a newline for each argument, in the
order given; the error stream is untouched. With no argument nothing is
appended. -/
theorem args_mode_output (env : Env) (w : World)
    (hhelp : env.flagHelp = false) (hstdin : env.flagStdin = false)
    (hmode : (env.flagDecode && env.flagEncode) = false)
    (hdec : env.flagDecode = true → ∀ a ∈ env.args, (QueryUnescape a).2 = none)
    (hout : ∀ x ∈ w.stdoutFaults, x = none) :
    ∃ t : transcoder, modeSwitch env w = .ok (some t) w ∧
      (∀ a ∈ env.args, ∀ v : World, t a v = .ok (transcoded env a) v) ∧
      main env w =
        .ok () { w with
          stdout := w.stdout ++ (env.args.map (fun a => transcoded env a ++ lit "\n")).flatten
          stdoutFaults := w.stdoutFaults.drop env.args.length } ∧
      exitStatus (main env w) = some 0 ∧
      (env.args = [] → (main env w).world.stdout = w.stdout) := by
  have key : ∃ t : transcoder, modeSwitch env w = .ok (some t) w ∧
      (∀ a ∈ env.args, ∀ v : World, t a v = .ok (transcoded env a) v) := by
    by_cases hd : env.flagDecode = true
    · have he : env.flagEncode = false := by simpa [hd] using hmode
      refine ⟨decoder, modeSwitch_decode env w hd he, fun a ha v => ?_⟩
      rw [decoder_of_ok a v (hdec hd a ha)]
      simp [transcoded, hd]
    · have hd2 : env.flagDecode = false := by simpa using hd
      refine ⟨encoder, modeSwitch_encode env w hd2, fun a _ v => ?_⟩
      rw [encoder_apply]
      simp [transcoded, hd2]
  obtain ⟨t, hsel, ht⟩ := key
  have hmain : main env w =
      .ok () { w with
        stdout := w.stdout ++ (env.args.map (fun a => transcoded env a ++ lit "\n")).flatten
        stdoutFaults := w.stdoutFaults.drop env.args.length } := by
    rw [main_no_help env w hhelp, Proc.bind_ok _ _ _ _ _ hsel]
    simp only [hstdin, Bool.false_eq_true, if_false, runArgs]
    exact runArgsLoop_returns t (transcoded env) env.args w ht hout
  refine ⟨t, hsel, ht, hmain, ?_, ?_⟩
  · rw [hmain]
    rfl
  · intro hnil
    rw [hmain, hnil]
    simp [Res.world]

/-- Witness of C5: decode mode on the arguments `a%2Bb` and `c+d`. -/
theorem args_mode_output_witness :
    (argsExample.flagHelp = false ∧ argsExample.flagStdin = false ∧
      (argsExample.flagDecode && argsExample.flagEncode) = false ∧
      (∀ a ∈ argsExample.args, (QueryUnescape a).2 = none) ∧
      (∀ x ∈ World.init.stdoutFaults, x = none)) ∧
    main argsExample World.init = .ok () { World.init with stdout := lit "a+b\nc d\n" } ∧
    exitStatus (main argsExample World.init) = some 0 := by
  obtain ⟨_, _, _, hm, he, _⟩ :=
    args_mode_output argsExample World.init rfl rfl rfl (fun _ => by decide) (by decide)
  exact ⟨⟨rfl, rfl, rfl, by decide, by decide⟩, hm, he⟩

/-- C6 as stated fails at `%ff`: the decoded byte `0xFF` is not valid UTF-8, yet
`decoder` returns it without taking the error branch. -/
theorem decoder_accepts_invalid_utf8 :
    DecodeRuneInString [255] = (RuneError, 1) ∧
      decoder (lit "%ff") World.init = .ok [255] World.init := by
  refine ⟨by rfl, by rfl⟩

/-- C6, amended. When the error stream accepts the write, `decoder` takes its
error branch and ends the process with `exitDecodeError` exactly on the inputs
that contain a `%` not followed by two hex digits; on every other input it
returns, whatever bytes the escapes decode to. -/
theorem decoder_fails_iff_bad_escape (s : Str) (w : World) (hw : w.stderrReady = true) :
    (hasBadEscape s = true →
        decoder s w = .exit exitDecodeError (w.afterStderr badEncodingMessage)) ∧
      (hasBadEscape s = false → decoder s w = .ok (QueryUnescape s).1 w) := by
  constructor
  · intro hb
    exact decoder_of_error s w ((QueryUnescape_error_iff s).mpr hb) hw
  · intro hb
    apply decoder_of_ok
    by_contra hne
    have := (QueryUnescape_error_iff s).mp hne
    rw [hb] at this
    cases this

/-- Witness of C6 amended: the input `%zz`. -/
theorem decoder_fails_iff_bad_escape_witness :
    World.init.stderrReady = true ∧ hasBadEscape (lit "%zz") = true ∧
      decoder (lit "%zz") World.init =
        .exit exitDecodeError (World.init.afterStderr badEncodingMessage) :=
  ⟨rfl, by decide,
    (decoder_fails_iff_bad_escape (lit "%zz") World.init rfl).1 (by decide)⟩

/-- C7. Unreserved characters pass through: on a string whose characters are all
unreserved, `encoder` returns the string itself. -/
theorem encoder_unreserved_identity (s : Str) (w : World)
    (h : ∀ c ∈ s, isUnreserved c = true) : encoder s w = .ok s w := by
  rw [encoder_apply, QueryEscape_of_unreserved s h]

/-- Witness of C7: a string with a letter of each case, digits and the four
marks. -/
theorem encoder_unreserved_identity_witness :
    (∀ c ∈ lit "aZ09-_.~", isUnreserved c = true) ∧
      encoder (lit "aZ09-_.~") World.init = .ok (lit "aZ09-_.~") World.init :=
  ⟨by decide, encoder_unreserved_identity (lit "aZ09-_.~") World.init (by decide)⟩

/-- C8. Default mode: with `--decode` unset, the mode switch selects `encoder`
whether `--encode` is set or not, and `main` ends in the same way, with the same
standard output and error output, for every other flag, input and state of the
streams. -/
theorem default_mode_is_encode (env : Env) (w : World) :
    modeSwitch { env with flagDecode := false, flagEncode := false } w = .ok (some encoder) w ∧
      modeSwitch { env with flagDecode := false, flagEncode := true } w = .ok (some encoder) w ∧
      main { env with flagDecode := false, flagEncode := false } w =
        main { env with flagDecode := false, flagEncode := true } w := by
  refine ⟨modeSwitch_encode _ w rfl, modeSwitch_encode _ w rfl, ?_⟩
  by_cases hh : env.flagHelp = true
  · simp only [main, hh]
    rfl
  · have hf : env.flagHelp = false := by simpa using hh
    rw [main_no_help { env with flagDecode := false, flagEncode := false } w hf,
      main_no_help { env with flagDecode := false, flagEncode := true } w hf,
      Proc.bind_ok _ _ _ _ _ (modeSwitch_encode _ w rfl),
      Proc.bind_ok _ _ _ _ _ (modeSwitch_encode _ w rfl)]
    cases env.flagStdin <;> rfl

/-- C9. Mutual exclusivity: with `--decode` and `--encode` both set, and the
error stream accepting the write, `main` ends with `exitUsage` and standard
output is left as it was, for every input and every setting of `--stdin` and
`--help`; without `--help` the process ends in the mode switch, right after
the conflict diagnostic has been appended to the error stream. -/
theorem conflict_exits_usage (env : Env) (w : World)
    (hd : env.flagDecode = true) (he : env.flagEncode = true) (hw : w.stderrReady = true) :
    exitStatus (main env w) = some exitUsage ∧ (main env w).world.stdout = w.stdout ∧
      (env.flagHelp = false → main env w = .exit exitUsage (w.afterStderr conflictMessage)) := by
  cases hh : env.flagHelp
  · have hm : main env w = .exit exitUsage (w.afterStderr conflictMessage) := by
      rw [main_no_help env w hh, Proc.bind_exit _ _ _ _ _ (modeSwitch_conflict env w hd he hw)]
    refine ⟨?_, ?_, fun _ => hm⟩
    · rw [hm]
      rfl
    · rw [hm]
      rfl
  · have hm := main_help env w hh hw
    refine ⟨?_, ?_, fun h => by cases h⟩
    · rw [hm]
      rfl
    · rw [hm]
      exact writeStderr_stdout _ _

/-- Witness of C9: both mode flags with `--stdin` and an argument. -/
theorem conflict_exits_usage_witness :
    (conflictExample.flagDecode = true ∧ conflictExample.flagEncode = true ∧
      World.init.stderrReady = true) ∧
    main conflictExample World.init =
      .exit exitUsage { World.init with stderr := conflictMessage } :=
  ⟨⟨rfl, rfl, rfl⟩, (conflict_exits_usage conflictExample World.init rfl rfl rfl).2.2 rfl⟩

/-- C10. Help flag precedence: with `--help` set, and the error stream accepting
the write, `main` ends with `exitUsage` right after `usage` has printed the
program name with the usage headline and the flag defaults to the error stream,
for every setting of the other flags and every input; the mode switch and the
runner are not reached and standard output is left as it was. -/
theorem help_exits_usage (env : Env) (w : World) (hh : env.flagHelp = true)
    (hw : w.stderrReady = true) :
    main env w =
        .exit exitUsage
          ((w.afterStderr (env.programName ++ usageHeadline)).writeStderr env.flagDefaults).1 ∧
      (main env w).world.stdout = w.stdout := by
  have hm := main_help env w hh hw
  refine ⟨hm, ?_⟩
  rw [hm]
  exact writeStderr_stdout _ _

/-- Witness of C10: `--help` together with all the other flags. -/
theorem help_exits_usage_witness :
    (helpExample.flagHelp = true ∧ World.init.stderrReady = true) ∧
    main helpExample World.init =
      .exit exitUsage
        { World.init with
          stderr := lit "urixcode" ++ usageHeadline ++ lit "  -D, --decode\n" } :=
  ⟨⟨rfl, rfl⟩, (help_exits_usage helpExample World.init rfl rfl).1⟩

/-! ## Formatting without operands always gives a result -/

theorem length_dropWhile_le (q : Byte → Bool) (l : Str) :
    (l.dropWhile q).length ≤ l.length :=
  (List.dropWhile_sublist q).length_le

theorem parsenumLoop_length (s : Str) :
    ∀ (num : Nat) (isnum : Bool), (parsenumLoop s num isnum).2.2.length ≤ s.length := by
  induction s with
  | nil => intro num isnum; simp [parsenumLoop]
  | cons c rest ih =>
    intro num isnum
    unfold parsenumLoop
    split
    · split
      · simp
      · exact Nat.le_succ_of_le (ih _ _)
    · simp

theorem parsenum_length (s : Str) : (parsenum s).2.2.length ≤ s.length := by
  unfold parsenum
  split
  · simp
  · exact parsenumLoop_length _ _ _

theorem parseArgNumber_length (format : Str) :
    (parseArgNumber format).2.1.length ≤ format.length := by
  unfold parseArgNumber
  split
  · simp
  · simp only
    split
    · simp
    · rename_i x after hdw
      have h1 := length_dropWhile_le (fun c : Byte => decide (c ≠ 93)) (format.drop 1)
      rw [hdw] at h1
      have h2 : (format.drop 1).length ≤ format.length := by simp
      have h3 : after.length ≤ format.length := by
        simp only [List.length_cons] at h1
        omega
      split <;> simpa using h3

theorem argNumber_length (p : pp) (argNum : Nat) (format : Str) (numArgs : Nat) :
    (argNumber p argNum format numArgs).2.2.1.length ≤ format.length := by
  unfold argNumber
  split
  · rename_i r
    have h := parseArgNumber_length (91 :: r)
    rcases hp : parseArgNumber (91 :: r) with ⟨index, rest, ok⟩
    rw [hp] at h
    simp only
    split <;> simpa using h
  · simp

theorem parseWidth_length (a : List Str) (p : pp) (argNum : Nat) (format : Str) (ai : Bool) :
    (parseWidth a p argNum format ai).2.2.1.length ≤ format.length := by
  unfold parseWidth
  split
  · simp
  · have h := parsenum_length format
    rcases hp : parsenum format with ⟨num, present, r⟩
    rw [hp] at h
    simpa using h

theorem parsePrecision_length (a : List Str) (p : pp) (argNum : Nat) (format : Str) (ai : Bool) :
    (parsePrecision a p argNum format ai).2.2.1.length ≤ format.length := by
  unfold parsePrecision
  split
  · rename_i r
    have h := argNumber_length (if ai = true then { p with goodArgNum := false } else p)
      argNum r a.length
    rcases hp : argNumber (if ai = true then { p with goodArgNum := false } else p)
      argNum r a.length with ⟨q1, n1, r1, ai1⟩
    rw [hp] at h
    simp only at h ⊢
    split
    · rename_i r2
      simp only [List.length_cons] at h ⊢
      omega
    · have h2 := parsenum_length r1
      rcases hp2 : parsenum r1 with ⟨num, present, r2⟩
      rw [hp2] at h2
      simp only [List.length_cons] at h2 ⊢
      omega
  · simp

theorem printVerb_length (a : List Str) (p : pp) (argNum : Nat) (format : Str) (plain : Bool)
    (q : pp) (n : Nat) (rest : Str)
    (h : printVerb a p argNum format plain = some (q, n, some rest)) :
    rest.length ≤ format.length := by
  unfold printVerb at h
  split at h
  · simp at h
  · rename_i c r
    rcases hv : (if c.val ≥ 0x80 then DecodeRuneInString (c :: r) else (c.val, 1))
      with ⟨verb, size⟩
    rw [hv] at h
    simp only at h
    have hd : ((c :: r).drop size).length ≤ (c :: r).length := by simp
    split at h
    · simp only [Option.some.injEq, Prod.mk.injEq] at h
      rw [← h.2.2]
      exact hd
    · split at h
      · simp only [Option.some.injEq, Prod.mk.injEq] at h
        rw [← h.2.2]
        exact hd
      · split at h
        · simp only [Option.some.injEq, Prod.mk.injEq] at h
          rw [← h.2.2]
          exact hd
        · split at h
          · simp at h
          · simp only [Option.some.injEq, Prod.mk.injEq] at h
            rw [← h.2.2]
            exact hd

theorem printVerb_no_operand (p : pp) (argNum : Nat) (format : Str) (plain : Bool) :
    ∃ r, printVerb [] p argNum format plain = some r := by
  unfold printVerb
  split
  · exact ⟨_, rfl⟩
  · rename_i c r
    rcases hv : (if c.val ≥ 0x80 then DecodeRuneInString (c :: r) else (c.val, 1))
      with ⟨verb, size⟩
    simp only
    split
    · exact ⟨_, rfl⟩
    · split
      · exact ⟨_, rfl⟩
      · simp

theorem directive_no_operand (p : pp) (argNum : Nat) (format : Str) :
    ∃ q n rest, directive [] p argNum format = some (q, n, rest) ∧
      ∀ r, rest = some r → r.length ≤ format.length := by
  have h2 := length_dropWhile_le isFlag format
  have h3 := argNumber_length p argNum (format.dropWhile isFlag) ([] : List Str).length
  rcases ha : argNumber p argNum (format.dropWhile isFlag) ([] : List Str).length
    with ⟨p1, n1, f3, ai1⟩
  rw [ha] at h3
  have h4 := parseWidth_length [] p1 n1 f3 ai1
  rcases hw : parseWidth [] p1 n1 f3 ai1 with ⟨p2, n2, f4, wp, ai2⟩
  rw [hw] at h4
  have h5 := parsePrecision_length [] p2 n2 f4 ai2
  rcases hp : parsePrecision [] p2 n2 f4 ai2 with ⟨p3, n3, f5, pp3, ai3⟩
  rw [hp] at h5
  have h6 := argNumber_length p3 n3 f5 ([] : List Str).length
  rcases hb : (if ai3 = true then (p3, n3, f5, ai3)
      else argNumber p3 n3 f5 ([] : List Str).length) with ⟨p4, n4, f6, ai4⟩
  have h7 : f6.length ≤ f5.length := by
    by_cases hai : ai3 = true
    · rw [if_pos hai] at hb
      simp only [Prod.mk.injEq] at hb
      rw [← hb.2.2.1]
    · rw [if_neg hai] at hb
      rw [hb] at h6
      exact h6
  simp only at h3 h4 h5
  obtain ⟨⟨q, n, rest⟩, hr⟩ := printVerb_no_operand p4 n4 f6
    (decide (List.dropWhile isFlag format = format) && !wp && !pp3)
  refine ⟨q, n, rest, ?_, ?_⟩
  · unfold directive
    have hfast : ¬ (0 < (format.dropWhile isFlag).length ∧ 97 ≤ (format.dropWhile isFlag).headD 0 ∧
        (format.dropWhile isFlag).headD 0 ≤ 122 ∧ argNum < ([] : List Str).length) := by
      simp
    simp only [if_neg hfast, ha, hw, hp, hb, hr]
  · intro r hrest
    subst hrest
    have := printVerb_length [] p4 n4 f6 _ q n r hr
    omega

theorem formatLoop_no_operand (fuel : Nat) :
    ∀ (format : Str) (argNum : Nat) (p : pp), format.length < fuel →
      ∃ r, formatLoop [] fuel format argNum p = some r := by
  induction fuel with
  | zero => intro format argNum p h; omega
  | succ fuel ih =>
    intro format argNum p h
    unfold formatLoop
    split
    · exact ⟨_, rfl⟩
    · rename_i x f1 hdw
      have h1 := length_dropWhile_le (fun c : Byte => decide (c ≠ 37)) format
      rw [hdw] at h1
      simp only [List.length_cons] at h1
      obtain ⟨q, n, rest, hd, hlen⟩ := directive_no_operand
        { p with goodArgNum := true, buf := p.buf ++ format.takeWhile (fun c => c ≠ 37) }
        argNum f1
      rw [hd]
      cases rest with
      | none => exact ⟨_, rfl⟩
      | some r =>
        have := hlen r rfl
        exact ih r n q (by omega)

/-- A format without operands is always formatted: the fuel of `formatLoop` is
enough and no directive falls outside `printArg`. -/
theorem doPrintf_no_operand (format : Str) : ∃ text, doPrintf format [] = some text := by
  obtain ⟨⟨p, n⟩, h⟩ := formatLoop_no_operand (format.length + 1) format 0
    { buf := [], reordered := false, goodArgNum := true } (Nat.lt_succ_self _)
  unfold doPrintf
  rw [h]
  simp

end Urixcode
